import Mathlib

/-!
Verification of the session-indexed item browser of `hncli/hacker_news.py`.

The development shallowly embeds the core logic of the `HackerNews` class:

* `pretty_date_time` - the relative-age formatter (`HackerNews.pretty_date_time`),
  modelled over the elapsed time in seconds (`now - submission_time`), with
  `none` standing for an absent submission time.  Python `timedelta`
  normalisation gives `days = diff floordiv 86400` and
  `seconds = diff mod 86400` with a non-negative remainder, which for the
  positive divisor 86400 coincides with the Euclidean `/` and `%` on `Int`.
* `regex_match` and the comment-tree walk (`HackerNews.print_comments`),
  parametrised by an abstract regular-expression search function standing for
  the external `re.search`.
* `print_items` / `print_formatted_item` - the listing loop, including the
  `re.sub` call on the link host (`sub_www`).
* `save_item_ids` and the parsing part of `HackerNews.view` - persistence of
  the session index, modelled at the level of the value string stored under
  the `item_ids` key (the configparser envelope and the file system are
  external I/O; the value written for a list is its Python textual rendering).
* `pyGet` - Python list subscription `l[i]`, including negative indices.

All definitions are executable and follow the Python source line by line.
The file is laid out with all definitions first, then the theorems.
-/

set_option autoImplicit false

namespace HNCli

/-! ## Definitions -/

/-! ### TimeFormatter (`HackerNews.pretty_date_time`, lines 117-165) -/

/-- Tail of `pretty_date_time` from line 157 on (`day_diff == 1` and later).
The Python code reaches this block either when `day_diff > 0`, or when
`day_diff == 0` and the whole `second_diff` chain fell through (which never
happens, since `second_diff < 86400` always holds); the helper mirrors that
shared fall-through target. -/
def day_cases (day_diff : Int) : String :=
  if day_diff = 1 then "Yesterday"
  else if day_diff < 7 then toString day_diff ++ " days ago"
  else if day_diff < 31 then toString (day_diff / 7) ++ " weeks ago"
  else if day_diff < 365 then toString (day_diff / 30) ++ " months ago"
  else toString (day_diff / 365) ++ " years ago"

/-- Body of `pretty_date_time` over the already computed difference `diff`
(in whole seconds): `second_diff = diff % 86400` and `day_diff = diff / 86400`
with floor semantics, exactly as Python `timedelta` normalises a difference
into `days` and `seconds`. -/
def pretty_date_time_of_diff (diff : Int) : String :=
  if diff / 86400 < 0 then ""
  else if diff / 86400 = 0 then
    if diff % 86400 < 10 then "just now"
    else if diff % 86400 < 60 then toString (diff % 86400) ++ " seconds ago"
    else if diff % 86400 < 120 then "1 minute ago"
    else if diff % 86400 < 3600 then toString (diff % 86400 / 60) ++ " minutes ago"
    else if diff % 86400 < 7200 then "1 hour ago"
    else if diff % 86400 < 86400 then toString (diff % 86400 / 3600) ++ " hours ago"
    else day_cases (diff / 86400)
  else day_cases (diff / 86400)

/-- Model of `HackerNews.pretty_date_time`.  The argument is the elapsed time
`now - date_time` in whole seconds; `none` models an absent `date_time`, for
which line 139 computes `diff = now - now`, i.e. zero. -/
def pretty_date_time (elapsed : Option Int) : String :=
  pretty_date_time_of_diff (elapsed.getD 0)

/-- The piecewise boundary table of spec section 4.1, written from the words
of the specification (not from the code), for comparison with
`pretty_date_time`. -/
def spec_age_label (e : Int) : String :=
  if e < 0 then ""
  else if e < 10 then "just now"
  else if e < 60 then toString e ++ " seconds ago"
  else if e < 120 then "1 minute ago"
  else if e < 3600 then toString (e / 60) ++ " minutes ago"
  else if e < 7200 then "1 hour ago"
  else if e < 86400 then toString (e / 3600) ++ " hours ago"
  else if e / 86400 = 1 then "Yesterday"
  else if e / 86400 < 7 then toString (e / 86400) ++ " days ago"
  else if e / 86400 < 31 then toString (e / 86400 / 7) ++ " weeks ago"
  else if e / 86400 < 365 then toString (e / 86400 / 30) ++ " months ago"
  else toString (e / 86400 / 365) ++ " years ago"

/-! ### CommentFilter and CommentTreeWalker
(`HackerNews.regex_match`, lines 269-287, and `HackerNews.print_comments`,
lines 91-115) -/

/-- Abstract regular-expression search: `Matcher q s` stands for the external
`re.search(q, s)` finding a match (`re` is outside the core). -/
abbrev Matcher := String → String → Bool

/-- The fields of a `haxor.Item` read by the comment traversal.  `author`
models the `by` attribute (a Lean keyword); `submission_time` is, as for
`pretty_date_time`, already the elapsed time `now - submission_time`, with
`none` for an absent value.  `cid` is the item id, used only to record which
comment was rendered. -/
structure CInfo where
  cid : Nat
  author : String
  text : Option String
  submission_time : Option Int

/-- Model of `HackerNews.regex_match`.  Python raises a `TypeError` when
`item.text` is `None` (`re.search` needs a string), modelled as `none`;
otherwise the result is `False` iff none of body text, author and rendered
age label match (lines 279-287). -/
def regex_match (m : Matcher) (item : CInfo) (q : String) : Option Bool :=
  match item.text with
  | none => none
  | some t =>
    some (!(!(m q t) && !(m q item.author) &&
      !(m q (pretty_date_time item.submission_time))))

/-- A fetched comment tree: the node carries the item fields, the list the
already fetched children, in the order of the `kids` attribute.  The code
fetches each child by id during the walk; fetching is the external item
source, so the tree it returns is the input here. -/
inductive CTree where
  | node : CInfo → List CTree → CTree

mutual
/-- Model of `HackerNews.print_comments`: renders the current comment when it
has body text and either the query is empty (Python falsy) or `regex_match`
holds (lines 102-108), then recurses into the children in order with
`depth + 1` (lines 109-115).  The result is the list of
(item id, depth) pairs passed to `print_formatted_comment`, in print order. -/
def print_comments (m : Matcher) (q : String) (t : CTree) (depth : Nat) :
    List (Nat × Nat) :=
  match t with
  | .node item kids =>
    (match item.text with
     | none => []
     | some _ =>
       if q ≠ "" ∧ regex_match m item q = some false then []
       else [(item.cid, depth)])
    ++ print_comments_list m q kids depth
/-- The `for comment_id in comment_ids` loop of `print_comments`
(lines 111-115): each child is visited with `depth + 1`, and `depth` is
restored before the next sibling. -/
def print_comments_list (m : Matcher) (q : String) (ks : List CTree) (depth : Nat) :
    List (Nat × Nat) :=
  match ks with
  | [] => []
  | k :: rest => print_comments m q k (depth + 1) ++ print_comments_list m q rest depth
end

mutual
/-- Pre-order annotation of a comment tree, written from the words of the
specification (section 4.3): every node paired with its distance from the
root, parent before children, children in original order. -/
def preorder_annot (t : CTree) (depth : Nat) : List (CInfo × Nat) :=
  match t with
  | .node item kids => (item, depth) :: preorder_annot_list kids depth
/-- List version of `preorder_annot`: children of a node at depth `depth` are
annotated with `depth + 1`. -/
def preorder_annot_list (ks : List CTree) (depth : Nat) : List (CInfo × Nat) :=
  match ks with
  | [] => []
  | k :: rest => preorder_annot k (depth + 1) ++ preorder_annot_list rest depth
end

/-- A comment is rendered exactly when it has body text and the query is
empty or matches (spec sections 4.2 and 4.3). -/
def renders (m : Matcher) (q : String) (info : CInfo) : Bool :=
  info.text.isSome && (q == "" || regex_match m info q == some true)

/-- A matcher that never matches, used for concrete traversals with an empty
query (with an empty query the matcher is never consulted). -/
def no_matcher : Matcher := fun _ _ => false

/-- A sample comment with body text, for concrete traversals. -/
def sample_info (i : Nat) : CInfo := ⟨i, "user", some "body", some 100⟩

/-- The tree `A -> [B, C]`, `B -> [D]` of the claim, with ids
A = 1, B = 2, C = 3, D = 4, every node carrying body text. -/
def sample_tree : CTree :=
  .node (sample_info 1)
    [.node (sample_info 2) [.node (sample_info 4) []], .node (sample_info 3) []]

/-! ### ListPresenter (`HackerNews.print_items`, lines 230-251, and
`HackerNews.print_formatted_item`, lines 192-228) -/

/-- The fields of a `haxor.Item` read by the listing loop; `author` models
the `by` attribute and `submission_time` is the elapsed time as above. -/
structure Item where
  item_id : Nat
  title : Option String
  score : Int
  author : String
  descendants : Option Nat
  submission_time : Option Int
  url : Option String

/-- Python truthiness of an optional string (`if item.title:`): `None` and
the empty string are falsy. -/
def truthy_str : Option String → Bool
  | none => false
  | some s => !(s == "")

/-- Line 225: `str(item.descendants) if item.descendants else '0'` - both an
absent and a zero comment count display as "0". -/
def num_comments_str : Option Nat → String
  | none => "0"
  | some d => if d == 0 then "0" else toString d

/-- Line 211: `re.sub('www.', '', netloc)`.  The pattern has an unescaped
dot, so it matches three letters w followed by ANY character; `re.sub`
removes every non-overlapping occurrence, scanning left to right. -/
def sub_www : List Char → List Char
  | a :: b :: c :: d :: rest =>
    if a = 'w' ∧ b = 'w' ∧ c = 'w' then sub_www rest
    else a :: sub_www (b :: c :: d :: rest)
  | s => s

/-- Whether the regex `www.` (three letters w followed by any character)
matches anywhere in the string, i.e. whether `sub_www` changes anything. -/
def has_www : List Char → Bool
  | a :: b :: c :: d :: rest =>
    if a = 'w' ∧ b = 'w' ∧ c = 'w' then true else has_www (b :: c :: d :: rest)
  | _ => false

/-- The data printed for one listed item, in source order: index (line 203),
title (line 206), link host after `sub_www` when a url is present
(lines 209-213), score (line 216), author (line 219), age label (line 222)
and comment count (lines 225-227).  `netloc` stands for the external
`urlparse(...).netloc`. -/
structure Row where
  index : Nat
  title : String
  domain : Option (List Char)
  score : Int
  author : String
  age : String
  num_comments : String
deriving DecidableEq

/-- Model of `HackerNews.print_formatted_item` (lines 192-228) without its
final `item_ids.append` side effect, which `print_items_loop` performs. -/
def print_formatted_item (now : Int) (netloc : String → List Char)
    (item : Item) (index : Nat) : Row :=
  ⟨index, item.title.getD "", item.url.map (fun u => sub_www (netloc u)),
    item.score, item.author,
    pretty_date_time (item.submission_time.map (fun ts => now - ts)),
    num_comments_str item.descendants⟩

/-- The `for item_id in item_ids` loop of `HackerNews.print_items`
(lines 243-248): fetch each item through `api`, render it and append its id
to `self.item_ids` (state `st`) only when its title is truthy, incrementing
the displayed index only for rendered items. -/
def print_items_loop (now : Int) (netloc : String → List Char) (api : Nat → Item) :
    List Nat → Nat → List Nat → List Row × List Nat
  | [], _, st => ([], st)
  | item_id :: rest, index, st =>
    if truthy_str (api item_id).title then
      let r := print_items_loop now netloc api rest (index + 1)
        (st ++ [(api item_id).item_id])
      (print_formatted_item now netloc (api item_id) index :: r.1, r.2)
    else print_items_loop now netloc api rest index st

/-- Model of `HackerNews.print_items` (lines 230-251): the loop starts with
`index = 1` and with the CURRENT `self.item_ids` state `st` - the method
never resets `self.item_ids`, which is set to `[]` only in `__init__`
(line 76).  Returns the rendered rows and the final `self.item_ids`; the
method then persists the final state via `save_item_ids`. -/
def print_items (now : Int) (netloc : String → List Char) (api : Nat → Item)
    (item_ids : List Nat) (st : List Nat) : List Row × List Nat :=
  print_items_loop now netloc api item_ids 1 st

/-- An item source on which every item has a title and `item_id = id`. -/
def all_titled_api : Nat → Item :=
  fun i => ⟨i, some "title", 1, "a", none, none, none⟩

/-- An item source on which item 2 has no title and all others do. -/
def skip_api : Nat → Item :=
  fun i => if i = 2 then ⟨i, none, 1, "a", none, none, none⟩
    else ⟨i, some "title", 1, "a", none, none, none⟩

/-! ### SessionIndex persistence (`HackerNews.save_item_ids`, lines 289-302,
and the load/lookup part of `HackerNews.view`, lines 320-330) -/

/-- Decimal digit character, used by the rendering of a Python int. -/
def digitChar (d : Nat) : Char := Char.ofNat (48 + d)

/-- Fuelled core of the decimal rendering of a non-negative Python int
(least significant digit first into the accumulator).  The value shrinks at
every step, so any fuel of at least `n` steps gives the full rendering;
`natRepr` passes `n + 1`. -/
def natReprCore : Nat → Nat → List Char → List Char
  | 0, _, acc => acc
  | _ + 1, 0, acc => acc
  | fuel + 1, n + 1, acc =>
    natReprCore fuel ((n + 1) / 10) (digitChar ((n + 1) % 10) :: acc)

/-- Decimal rendering of a non-negative Python int, as `str` produces it. -/
def natRepr (n : Nat) : List Char :=
  if n = 0 then ['0'] else natReprCore (n + 1) n []

/-- Python `", ".join` over already rendered elements, as used by the
textual rendering `str(list)`. -/
def joinCommaSpace : List (List Char) → List Char
  | [] => []
  | [p] => p
  | p :: q :: ps => p ++ ',' :: ' ' :: joinCommaSpace (q :: ps)

/-- Model of `HackerNews.save_item_ids` (lines 289-302) at the level of the
value stored under the `item_ids` key: `RawConfigParser.write` renders the
list value with `str`, producing `[e1, e2, ...]` with the elements rendered
in decimal.  The configparser section/key envelope and the file write are
external I/O. -/
def save_item_ids (item_ids : List Nat) : List Char :=
  '[' :: (joinCommaSpace (item_ids.map natRepr) ++ [']'])

/-- Python `str.strip()`: remove whitespace from both ends. -/
def pyStrip (s : List Char) : List Char :=
  (((s.dropWhile Char.isWhitespace).reverse).dropWhile Char.isWhitespace).reverse

/-- Python `s.split(", ")` (line 329) on the character level: scan left to
right; at each position a comma followed by a space ends the current piece;
splitting the empty string yields one empty piece, like Python. -/
def splitCommaSpace : List Char → List (List Char)
  | [] => [[]]
  | [c] => [[c]]
  | c :: c2 :: rest =>
    if c = ',' ∧ c2 = ' ' then [] :: splitCommaSpace rest
    else
      (c :: (splitCommaSpace (c2 :: rest)).headI) :: (splitCommaSpace (c2 :: rest)).tail

/-- The parsing part of `HackerNews.view` (lines 324-329): strip the stored
value, delete every bracket and single-quote character (Python
`str.replace(c, '')` removes all occurrences), then split on `", "`.  The
result is the list of item ids as strings, as assigned to
`self.item_ids`. -/
def load_item_ids (value : List Char) : List (List Char) :=
  splitCommaSpace
    ((((pyStrip value).filter (fun c => c ≠ '[')).filter
        (fun c => c ≠ ']')).filter (fun c => c ≠ Char.ofNat 39))

/-- Python list subscription `l[i]` with an `int` index: negative indices
count from the end; an index out of both ranges raises `IndexError`,
modelled as `none`. -/
def pyGet {α : Type} (l : List α) (i : Int) : Option α :=
  if i < 0 then
    if i + l.length < 0 then none else l.get? (i + l.length).toNat
  else l.get? i.toNat

/-- Line 330 of `HackerNews.view`: `self.item_ids[index-1]`, the 1-based
positional lookup of the loaded session index. -/
def view_get (item_ids : List (List Char)) (index : Int) : Option (List Char) :=
  pyGet item_ids (index - 1)

/-! ## Theorems -/

/-! ### C4 / C5 - TimeFormatter -/

/-- C4: for every non-negative elapsed time the formatter agrees with the
piecewise boundary table of spec section 4.1, and hits the exact labels the
claim lists at the boundary seconds {0,9,10,59,60,119,120,3599,3600,7199,7200}
and at the floor-day differences {1,2,6,7,8,30,31,364,365}. -/
theorem pretty_date_time_table :
    (∀ e : Int, 0 ≤ e → pretty_date_time (some e) = spec_age_label e)
    ∧ pretty_date_time (some 0) = "just now"
    ∧ pretty_date_time (some 9) = "just now"
    ∧ pretty_date_time (some 10) = "10 seconds ago"
    ∧ pretty_date_time (some 59) = "59 seconds ago"
    ∧ pretty_date_time (some 60) = "1 minute ago"
    ∧ pretty_date_time (some 119) = "1 minute ago"
    ∧ pretty_date_time (some 120) = "2 minutes ago"
    ∧ pretty_date_time (some 3599) = "59 minutes ago"
    ∧ pretty_date_time (some 3600) = "1 hour ago"
    ∧ pretty_date_time (some 7199) = "1 hour ago"
    ∧ pretty_date_time (some 7200) = "2 hours ago"
    ∧ pretty_date_time (some (1 * 86400)) = "Yesterday"
    ∧ pretty_date_time (some (2 * 86400)) = "2 days ago"
    ∧ pretty_date_time (some (6 * 86400)) = "6 days ago"
    ∧ pretty_date_time (some (7 * 86400)) = "1 weeks ago"
    ∧ pretty_date_time (some (8 * 86400)) = "1 weeks ago"
    ∧ pretty_date_time (some (30 * 86400)) = "4 weeks ago"
    ∧ pretty_date_time (some (31 * 86400)) = "1 months ago"
    ∧ pretty_date_time (some (364 * 86400)) = "12 months ago"
    ∧ pretty_date_time (some (365 * 86400)) = "1 years ago" := by
  refine ⟨?_, ?_, ?_, ?_, ?_, ?_, ?_, ?_, ?_, ?_, ?_, ?_, ?_, ?_, ?_, ?_, ?_,
    ?_, ?_, ?_, ?_⟩
  · intro e he
    show pretty_date_time_of_diff e = spec_age_label e
    unfold pretty_date_time_of_diff spec_age_label day_cases
    by_cases h : e < 86400
    · have hm : e % 86400 = e := by omega
      have hd : e / 86400 = 0 := by omega
      rw [hm, hd, if_neg (by omega : ¬ (0:Int) < 0), if_pos (rfl : (0:Int) = 0),
        if_neg (by omega : ¬ e < 0)]
    · rw [if_neg (by omega : ¬ e / 86400 < 0), if_neg (by omega : ¬ e / 86400 = 0),
        if_neg (by omega : ¬ e < 0), if_neg (by omega : ¬ e < 10),
        if_neg (by omega : ¬ e < 60), if_neg (by omega : ¬ e < 120),
        if_neg (by omega : ¬ e < 3600), if_neg (by omega : ¬ e < 7200),
        if_neg (by omega : ¬ e < 86400)]
  all_goals decide

/-- Witness for the universal part of `pretty_date_time_table` at a concrete
elapsed time. -/
theorem pretty_date_time_table_witness :
    pretty_date_time (some 4242) = spec_age_label 4242 :=
  pretty_date_time_table.1 4242 (by decide)

/-- C5 counterexample: for an absent submission time the code computes
`diff = now - now` and returns "just now", not the empty string claimed by
the specification. -/
theorem pretty_date_time_none_counterexample :
    pretty_date_time none ≠ "" := by decide

/-- C5 amended: the empty string is returned exactly for negative elapsed
time (clock skew); an absent submission time instead yields a zero difference
and the label "just now". -/
theorem pretty_date_time_empty_amended :
    (∀ e : Int, e < 0 → pretty_date_time (some e) = "")
    ∧ pretty_date_time none = "just now" := by
  constructor
  · intro e he
    have hd : e / 86400 < 0 := by omega
    show pretty_date_time_of_diff e = ""
    unfold pretty_date_time_of_diff
    rw [if_pos hd]
  · decide

/-- Witness for `pretty_date_time_empty_amended` at elapsed time -1. -/
theorem pretty_date_time_empty_amended_witness :
    pretty_date_time (some (-1)) = "" :=
  pretty_date_time_empty_amended.1 (-1) (by decide)

/-! ### C6 / C7 - CommentTreeWalker and CommentFilter -/

mutual
/-- The walk prints exactly the pre-order annotation of the tree restricted
to the rendered comments (helper for the traversal claims). -/
theorem print_comments_eq_filter (m : Matcher) (q : String) :
    ∀ (t : CTree) (d : Nat),
      print_comments m q t d =
        ((preorder_annot t d).filter (fun p => renders m q p.1)).map
          (fun p => (p.1.cid, p.2))
  | .node item kids, d => by
    rw [print_comments, preorder_annot]
    rw [print_comments_list_eq_filter m q kids d]
    rcases htext : item.text with _ | t
    · simp [renders, htext]
    · by_cases hq : q = ""
      · subst hq
        simp [renders, htext]
      · rcases hb : regex_match m item q with _ | b
        · simp [regex_match, htext] at hb
        · cases b
          · simp [renders, htext, hq, hb]
          · simp [renders, htext, hq, hb]
/-- List version of `print_comments_eq_filter`. -/
theorem print_comments_list_eq_filter (m : Matcher) (q : String) :
    ∀ (ks : List CTree) (d : Nat),
      print_comments_list m q ks d =
        ((preorder_annot_list ks d).filter (fun p => renders m q p.1)).map
          (fun p => (p.1.cid, p.2))
  | [], _ => by simp [print_comments_list, preorder_annot_list]
  | k :: rest, d => by
    rw [print_comments_list, preorder_annot_list]
    rw [print_comments_eq_filter m q k (d + 1), print_comments_list_eq_filter m q rest d]
    simp
end

/-- C6: the walk renders the pre-order, depth-first annotation of the tree
(children in `kids` order, each node at depth equal to its distance from the
root) restricted to the rendered nodes; on the tree `A -> [B, C]`, `B -> [D]`
with all nodes carrying text and an empty query, the render order is
A, B, D, C at depths 0, 1, 2, 1. -/
theorem print_comments_preorder :
    (∀ (m : Matcher) (q : String) (t : CTree) (d : Nat),
      print_comments m q t d =
        ((preorder_annot t d).filter (fun p => renders m q p.1)).map
          (fun p => (p.1.cid, p.2)))
    ∧ print_comments no_matcher "" sample_tree 0 = [(1, 0), (2, 1), (4, 2), (3, 1)] :=
  ⟨print_comments_eq_filter, by decide⟩

/-- C7: with body text present and a non-empty pattern, `regex_match` is true
iff the pattern matches at least one of the author handle, the body text and
the rendered age label; with an empty pattern the walk renders every node
that has body text. -/
theorem regex_match_or_semantics :
    (∀ (m : Matcher) (item : CInfo) (q : String) (t : String),
      item.text = some t → q ≠ "" →
        (regex_match m item q = some true ↔
          (m q item.author = true ∨ m q t = true ∨
            m q (pretty_date_time item.submission_time) = true)))
    ∧ (∀ (m : Matcher) (t : CTree) (d : Nat),
        print_comments m "" t d =
          ((preorder_annot t d).filter (fun p => p.1.text.isSome)).map
            (fun p => (p.1.cid, p.2))) := by
  constructor
  · intro m item q t htext _
    simp only [regex_match, htext]
    cases h1 : m q t <;> cases h2 : m q item.author <;>
      cases h3 : m q (pretty_date_time item.submission_time) <;>
        simp [h1, h2, h3]
  · intro m t d
    rw [print_comments_eq_filter]
    have h : ∀ p ∈ preorder_annot t d,
        renders m "" p.1 = p.1.text.isSome := by
      intro p _
      simp [renders]
    rw [List.filter_congr h]

/-- Witness for the filter part of `regex_match_or_semantics` on a concrete
comment whose author matches the pattern. -/
theorem regex_match_or_semantics_witness :
    regex_match (fun q s => q == s) ⟨7, "alice", some "hello", none⟩ "alice" =
        some true ↔
      ((fun (q s : String) => q == s) "alice" "alice" = true ∨
        (fun (q s : String) => q == s) "alice" "hello" = true ∨
        (fun (q s : String) => q == s) "alice"
          (pretty_date_time (none : Option Int)) = true) :=
  regex_match_or_semantics.1 (fun q s => q == s) ⟨7, "alice", some "hello", none⟩
    "alice" "hello" rfl (by decide)

/-! ### C3 / C8 / C9 - ListPresenter -/

/-- Invariant of the listing loop: starting at display index `idx` with state
`st`, the loop renders exactly the items with a truthy title, numbered
consecutively from `idx`, and appends exactly their ids to the state, in
order. -/
theorem print_items_loop_spec (now : Int) (netloc : String → List Char)
    (api : Nat → Item) :
    ∀ (ids : List Nat) (idx : Nat) (st : List Nat),
      print_items_loop now netloc api ids idx st =
        ((List.range' idx (ids.filter (fun i => truthy_str (api i).title)).length).zipWith
            (fun j i => print_formatted_item now netloc (api i) j)
            (ids.filter (fun i => truthy_str (api i).title)),
          st ++ (ids.filter (fun i => truthy_str (api i).title)).map
            (fun i => (api i).item_id)) := by
  intro ids
  induction ids with
  | nil => intro idx st; simp [print_items_loop]
  | cons hd tl ih =>
    intro idx st
    by_cases h : truthy_str (api hd).title
    · simp [print_items_loop, h, List.filter_cons, List.range'_succ, ih]
    · simp [print_items_loop, h, List.filter_cons, ih]

/-- C8: a listing renders one numbered row per item with a truthy title, in
input order, numbered contiguously from 1, skips every item without a title,
and the session index receives exactly the ids of the rendered items in
order; on three ids of which the second has no title, the rows are numbered
1 and 2 and the index holds the first and third id. -/
theorem print_items_skip_untitled :
    (∀ (now : Int) (netloc : String → List Char) (api : Nat → Item)
        (ids : List Nat),
      (print_items now netloc api ids []).1 =
        (List.range' 1 (ids.filter (fun i => truthy_str (api i).title)).length).zipWith
          (fun j i => print_formatted_item now netloc (api i) j)
          (ids.filter (fun i => truthy_str (api i).title))
      ∧ (print_items now netloc api ids []).2 =
          (ids.filter (fun i => truthy_str (api i).title)).map
            (fun i => (api i).item_id))
    ∧ (print_items 0 (fun _ => []) skip_api [1, 2, 3] []).1.map (fun r => r.index)
        = [1, 2]
    ∧ (print_items 0 (fun _ => []) skip_api [1, 2, 3] []).2 = [1, 3] := by
  refine ⟨fun now netloc api ids => ?_, by decide, by decide⟩
  rw [print_items, print_items_loop_spec]
  exact ⟨rfl, by simp⟩

/-- C3 counterexample: two listing operations in the same process accumulate:
after listing item 1 and then listing item 2, `self.item_ids` is `[1, 2]`,
not `[2]` as the claim requires (the code never clears `item_ids` at the
start of a listing; only `__init__` does). -/
theorem listing_index_counterexample :
    (print_items 0 (fun _ => []) all_titled_api [2]
        ((print_items 0 (fun _ => []) all_titled_api [1] []).2)).2 ≠ [2] := by
  decide

/-- C3 amended: a listing operation appends the ids of its rendered items to
the existing `self.item_ids` state; the index therefore equals exactly the
ids rendered by the listing only when the state was empty beforehand, which
holds for the first listing of a process (`__init__` sets `item_ids = []`)
but not for later ones. -/
theorem listing_index_accumulates :
    ∀ (now : Int) (netloc : String → List Char) (api : Nat → Item)
      (ids st : List Nat),
      (print_items now netloc api ids st).2 =
        st ++ (ids.filter (fun i => truthy_str (api i).title)).map
          (fun i => (api i).item_id)
      ∧ (st = [] →
          (print_items now netloc api ids st).2 =
            (ids.filter (fun i => truthy_str (api i).title)).map
              (fun i => (api i).item_id)) := by
  intro now netloc api ids st
  rw [print_items, print_items_loop_spec]
  exact ⟨rfl, fun h => by simp [h]⟩

/-- Witness for `listing_index_accumulates` on a fresh (empty) state. -/
theorem listing_index_accumulates_witness :
    (print_items 0 (fun _ => []) all_titled_api [5] []).2 =
      (([5] : List Nat).filter (fun i => truthy_str (all_titled_api i).title)).map
        (fun i => (all_titled_api i).item_id) :=
  (listing_index_accumulates 0 (fun _ => []) all_titled_api [5] []).2 rfl

/-- C9 counterexample: the host `awww.com` has no leading `www.` prefix, yet
the rendered domain is `acom` - `re.sub('www.', '', ...)` removed the inner
`www` together with the dot after it, so the host is not displayed
unchanged. -/
theorem sub_www_counterexample :
    (print_formatted_item 0 (fun _ => "awww.com".toList)
        ⟨100, some "story", 10, "bob", some 3, none, some "http://awww.com/"⟩
        1).domain = some "acom".toList
    ∧ "acom".toList ≠ "awww.com".toList := by
  decide

/-- C9 amended: the displayed host is the result of removing every
non-overlapping occurrence of three letters w followed by any one character
(the unescaped regex `www.`), scanning left to right - in particular a
leading `www.` is removed, but so is any other such occurrence; only hosts
containing no such occurrence are displayed unchanged. -/
theorem sub_www_amended :
    (∀ s : List Char, has_www s = false → sub_www s = s)
    ∧ (∀ (a : Char) (s : List Char), sub_www ('w' :: 'w' :: 'w' :: a :: s) = sub_www s)
    ∧ sub_www "www.example.com".toList = "example.com".toList := by
  refine ⟨?_, ?_, by decide⟩
  · intro s
    induction s using sub_www.induct with
    | case1 a b c d rest hw ih =>
      intro h
      rw [has_www.eq_def] at h
      simp [if_pos hw] at h
    | case2 a b c d rest hw ih =>
      intro h
      rw [has_www.eq_def] at h
      simp only [if_neg hw] at h
      rw [sub_www.eq_def]
      simp only [if_neg hw]
      rw [ih h]
    | case3 s hs =>
      intro h
      rw [sub_www.eq_def]
      split
      · exact (hs _ _ _ _ _ rfl).elim
      · rfl
  · intro a s
    rw [sub_www.eq_def]
    simp

/-- Witness for the identity part of `sub_www_amended` on a host without any
`www` occurrence. -/
theorem sub_www_amended_witness :
    sub_www "example.org".toList = "example.org".toList :=
  sub_www_amended.1 "example.org".toList (by decide)

/-! ### C1 / C2 / C10 - SessionIndex persistence -/

/-- Decimal digit characters are digits. -/
theorem digitChar_isDigit : ∀ d : Nat, d < 10 → (digitChar d).isDigit = true := by
  intro d hd
  interval_cases d <;> decide

/-- Every character produced by `natReprCore` is a digit or was already in
the accumulator. -/
theorem natReprCore_mem :
    ∀ (fuel n : Nat) (acc : List Char) (c : Char),
      c ∈ natReprCore fuel n acc → c.isDigit = true ∨ c ∈ acc := by
  intro fuel
  induction fuel with
  | zero => intro n acc c h; exact Or.inr h
  | succ f ih =>
    intro n acc c h
    match n with
    | 0 => exact Or.inr h
    | m + 1 =>
      rw [natReprCore] at h
      rcases ih _ _ _ h with hd | hm
      · exact Or.inl hd
      · rcases List.mem_cons.mp hm with he | ha
        · exact Or.inl (he ▸ digitChar_isDigit _ (Nat.mod_lt _ (by omega)))
        · exact Or.inr ha

/-- `natReprCore` never erases the accumulator. -/
theorem natReprCore_ne_nil :
    ∀ (fuel n : Nat) (acc : List Char), acc ≠ [] → natReprCore fuel n acc ≠ [] := by
  intro fuel
  induction fuel with
  | zero => intro n acc h; exact h
  | succ f ih =>
    intro n acc h
    match n with
    | 0 => exact h
    | m + 1 =>
      rw [natReprCore]
      exact ih _ _ (by simp)

/-- The decimal rendering of a Python int consists of digits. -/
theorem natRepr_mem : ∀ (n : Nat) (c : Char), c ∈ natRepr n → c.isDigit = true := by
  intro n c h
  rw [natRepr] at h
  split at h
  · simp at h
    subst h
    decide
  · rcases natReprCore_mem _ _ _ _ h with hd | hm
    · exact hd
    · simp at hm

/-- The decimal rendering of a Python int is never empty. -/
theorem natRepr_ne_nil : ∀ n : Nat, natRepr n ≠ [] := by
  intro n
  rw [natRepr]
  split
  · simp
  · rename_i hn
    match n, hn with
    | m + 1, _ =>
      rw [natReprCore]
      exact natReprCore_ne_nil _ _ _ (by simp)

/-- Every character of a comma-space join comes from one of the pieces or is
a comma or a space. -/
theorem joinCommaSpace_mem :
    ∀ (ps : List (List Char)) (c : Char), c ∈ joinCommaSpace ps →
      (∃ p ∈ ps, c ∈ p) ∨ c = ',' ∨ c = ' ' := by
  intro ps
  induction ps with
  | nil => intro c h; simp [joinCommaSpace] at h
  | cons p ps ih =>
    intro c h
    match ps with
    | [] =>
      rw [joinCommaSpace] at h
      exact Or.inl ⟨p, by simp, h⟩
    | q :: ps' =>
      rw [joinCommaSpace] at h
      rcases List.mem_append.mp h with hp | hr
      · exact Or.inl ⟨p, by simp, hp⟩
      · rcases List.mem_cons.mp hr with hc | hr2
        · exact Or.inr (Or.inl hc)
        · rcases List.mem_cons.mp hr2 with hc | hr3
          · exact Or.inr (Or.inr hc)
          · rcases ih c hr3 with ⟨p2, hp2, hcp2⟩ | hcs
            · exact Or.inl ⟨p2, by simp [hp2], hcp2⟩
            · exact Or.inr hcs

/-- A split always yields at least one piece. -/
theorem splitCommaSpace_cons_headI_tail :
    ∀ s : List Char,
      splitCommaSpace s = (splitCommaSpace s).headI :: (splitCommaSpace s).tail := by
  intro s
  match s with
  | [] => rfl
  | [c] => rfl
  | c :: c2 :: rest =>
    rw [splitCommaSpace]
    split
    · rfl
    · rfl

/-- Splitting after a comma-free prefix: the prefix lands at the front of the
first piece of the split of the remainder. -/
theorem splitCommaSpace_append :
    ∀ (p : List Char), (∀ c ∈ p, c ≠ ',') →
      ∀ s : List Char,
        splitCommaSpace (p ++ s) =
          (p ++ (splitCommaSpace s).headI) :: (splitCommaSpace s).tail := by
  intro p
  induction p with
  | nil =>
    intro _ s
    simpa using splitCommaSpace_cons_headI_tail s
  | cons c p' ih =>
    intro hp s
    have hc : c ≠ ',' := hp c (by simp)
    have hp' : ∀ x ∈ p', x ≠ ',' := fun x hx => hp x (by simp [hx])
    rcases hps : p' ++ s with _ | ⟨a, w⟩
    · rcases List.append_eq_nil.mp hps with ⟨h1, h2⟩
      subst h1; subst h2
      rfl
    · show splitCommaSpace (c :: (p' ++ s)) = _
      rw [hps, splitCommaSpace]
      rw [if_neg (fun hand => hc hand.1)]
      rw [← hps, ih hp' s]
      simp

/-- Splitting on `", "` inverts the comma-space join of non-empty comma-free
pieces. -/
theorem splitCommaSpace_join :
    ∀ ps : List (List Char), ps ≠ [] → (∀ p ∈ ps, ∀ c ∈ p, c ≠ ',') →
      splitCommaSpace (joinCommaSpace ps) = ps := by
  intro ps
  induction ps with
  | nil => intro h; exact absurd rfl h
  | cons p ps' ih =>
    intro _ hps
    have hp : ∀ c ∈ p, c ≠ ',' := hps p (by simp)
    match ps' with
    | [] =>
      rw [joinCommaSpace]
      have h := splitCommaSpace_append p hp []
      rw [List.append_nil] at h
      rw [h]
      simp [splitCommaSpace]
    | q :: ps2 =>
      rw [joinCommaSpace]
      rw [splitCommaSpace_append p hp (',' :: ' ' :: joinCommaSpace (q :: ps2))]
      rw [splitCommaSpace]
      rw [if_pos ⟨rfl, rfl⟩]
      rw [ih (by simp) (fun x hx => hps x (by simp [hx]))]
      simp

/-- Stripping whitespace does not change a value that starts with an opening
bracket and ends with a closing bracket. -/
theorem pyStrip_bracketed :
    ∀ mid : List Char, pyStrip ('[' :: (mid ++ [']'])) = '[' :: (mid ++ [']']) := by
  intro mid
  rw [pyStrip]
  rw [List.dropWhile_cons]
  rw [if_neg (by decide)]
  have h1 : ('[' :: (mid ++ [']'])).reverse = ']' :: ('[' :: mid).reverse := by
    simp
  rw [h1]
  rw [List.dropWhile_cons]
  rw [if_neg (by decide)]
  simp

/-- C1: for every non-empty list of appended ids, saving and re-loading the
session index reproduces the same ordered sequence, each id in its persisted
decimal-string form; in particular after `append(42); append(7); save()` a
fresh load answers `get(1) = "42"` and `get(2) = "7"`. -/
theorem session_index_round_trip :
    (∀ ids : List Nat, ids ≠ [] →
      load_item_ids (save_item_ids ids) = ids.map natRepr)
    ∧ view_get (load_item_ids (save_item_ids [42, 7])) 1 = some (natRepr 42)
    ∧ view_get (load_item_ids (save_item_ids [42, 7])) 2 = some (natRepr 7) := by
  refine ⟨?_, by decide, by decide⟩
  intro ids hne
  have hmid : ∀ c ∈ joinCommaSpace (ids.map natRepr),
      c.isDigit = true ∨ c = ',' ∨ c = ' ' := by
    intro c hc
    rcases joinCommaSpace_mem _ c hc with ⟨p, hp, hcp⟩ | hcs
    · rcases List.mem_map.mp hp with ⟨n, _, rfl⟩
      exact Or.inl (natRepr_mem n c hcp)
    · exact Or.inr hcs
  have hnb : ∀ c ∈ joinCommaSpace (ids.map natRepr),
      c ≠ '[' ∧ c ≠ ']' ∧ c ≠ Char.ofNat 39 := by
    intro c hc
    rcases hmid c hc with hd | hc' | hc'
    · refine ⟨?_, ?_, ?_⟩ <;> intro he <;> rw [he] at hd <;> exact absurd hd (by decide)
    · subst hc'; exact ⟨by decide, by decide, by decide⟩
    · subst hc'; exact ⟨by decide, by decide, by decide⟩
  have hs1 : ∀ c ∈ joinCommaSpace (ids.map natRepr), c ≠ '[' :=
    fun c hc => (hnb c hc).1
  have hs2 : ∀ c ∈ joinCommaSpace (ids.map natRepr), c ≠ ']' :=
    fun c hc => (hnb c hc).2.1
  have hs3 : ∀ c ∈ joinCommaSpace (ids.map natRepr), c ≠ Char.ofNat 39 :=
    fun c hc => (hnb c hc).2.2
  rw [load_item_ids, save_item_ids, pyStrip_bracketed]
  have e1 : ('[' :: (joinCommaSpace (ids.map natRepr) ++ [']'])).filter
      (fun c => c ≠ '[') = joinCommaSpace (ids.map natRepr) ++ [']'] := by
    simp only [List.filter_cons, List.filter_append]
    norm_num
    rw [if_neg (by decide : ¬ (']' = '['))]
    rw [List.filter_eq_self.mpr (fun a ha => by simp [hs1 a ha])]
  rw [e1]
  have e2 : (joinCommaSpace (ids.map natRepr) ++ [']']).filter
      (fun c => c ≠ ']') = joinCommaSpace (ids.map natRepr) := by
    simp only [List.filter_append]
    norm_num
    exact hs2
  rw [e2]
  have e3 : (joinCommaSpace (ids.map natRepr)).filter
      (fun c => c ≠ Char.ofNat 39) = joinCommaSpace (ids.map natRepr) :=
    List.filter_eq_self.mpr (fun a ha => by simp [hs3 a ha])
  rw [e3]
  exact splitCommaSpace_join (ids.map natRepr) (by simpa using hne)
    (fun p hp c hcp => by
      rcases List.mem_map.mp hp with ⟨n, _, rfl⟩
      intro he
      have hd := natRepr_mem n c hcp
      rw [he] at hd
      exact absurd hd (by decide))

/-- Witness for `session_index_round_trip` on a one-element index. -/
theorem session_index_round_trip_witness :
    load_item_ids (save_item_ids [5]) = ([5] : List Nat).map natRepr :=
  session_index_round_trip.1 [5] (by decide)

/-- C2 counterexample: on the loaded two-element index persisted from
`[42, 7]`, `get(0)` does not fail - Python interprets `item_ids[0 - 1]` as
the last element, so it returns "7". -/
theorem view_get_range_counterexample :
    view_get (load_item_ids (save_item_ids [42, 7])) 0 ≠ none
    ∧ view_get (load_item_ids (save_item_ids [42, 7])) 0 = some (natRepr 7) := by
  exact ⟨by decide, by decide⟩

/-- C2 amended: for an index list of length n, `get(index)` fails exactly
when `index > n` or `index ≤ -n`; for `1 ≤ index ≤ n` it returns the
`index`-th element, and for `-n < index ≤ 0` Python negative indexing
returns the `(index + n)`-th element instead of failing. -/
theorem view_get_range_amended :
    ∀ (l : List (List Char)) (index : Int),
      (view_get l index = none ↔
        ((l.length : Int) < index ∨ index ≤ -(l.length : Int)))
      ∧ (1 ≤ index → index ≤ (l.length : Int) →
          view_get l index = l.get? (index - 1).toNat)
      ∧ (-(l.length : Int) < index → index ≤ 0 →
          view_get l index = l.get? (index - 1 + l.length).toNat) := by
  intro l index
  rw [view_get, pyGet]
  refine ⟨?_, ?_, ?_⟩
  · by_cases h1 : index - 1 < 0
    · rw [if_pos h1]
      by_cases h2 : index - 1 + l.length < 0
      · rw [if_pos h2]
        constructor
        · intro _; omega
        · intro _; rfl
      · rw [if_neg h2]
        rw [List.get?_eq_none]
        omega
    · rw [if_neg h1]
      rw [List.get?_eq_none]
      omega
  · intro ha hb
    rw [if_neg (by omega : ¬ index - 1 < 0)]
  · intro ha hb
    rw [if_pos (by omega : index - 1 < 0),
      if_neg (by omega : ¬ index - 1 + (l.length : Int) < 0)]

/-- Witness for the in-range part of `view_get_range_amended` on a
two-element index. -/
theorem view_get_range_amended_witness :
    view_get [natRepr 42, natRepr 7] 2 =
      [natRepr 42, natRepr 7].get? (((2 : Int) - 1).toNat) :=
  (view_get_range_amended [natRepr 42, natRepr 7] 2).2.1 (by decide) (by decide)

/-- C10: saving an empty session index persists the text `[]`, which a
subsequent load parses into the one-element list containing the empty
string, so `get(1)` does not fail and yields the empty identifier. -/
theorem empty_round_trip :
    save_item_ids [] = ['[', ']']
    ∧ load_item_ids (save_item_ids []) = [[]]
    ∧ view_get (load_item_ids (save_item_ids [])) 1 = some [] := by
  refine ⟨by decide, by decide, by decide⟩

end HNCli
